import Mathlib

/-!
Shallow embedding of the reader-writer visualizer (src/resource_box.rs,
src/threads.rs).

The geometry fields (`pos`, `width`, `height`, the layout ratios) are
presentation-only `f32` data with no influence on the synchronization
logic and are omitted from the embedding.  The `u32` occupancy counters
are modelled as `Nat`: every increment performed by the program is
guarded (writers) or bounded by the number of thread entities holding
the resource (readers), so `u32` overflow is unreachable in program
runs.  The `Arc<RwLock<...>>` wrapper serializes access in the real
program; the simulation itself is single-threaded (one driver loop), so
the lock always succeeds and the embedding elides it, keeping the
`Ok`-branch bodies of the Rust functions.
-/

/-- The occupancy counters of `ResourceInner` (src/resource_box.rs):
`read_count` and `write_count`, plus the display name. -/
structure Resource where
  name : String
  read_count : Nat
  write_count : Nat
deriving DecidableEq, Repr

/-- `Resource::new`: a fresh resource with both counters zero. -/
def Resource.new (name : String) : Resource :=
  { name := name, read_count := 0, write_count := 0 }

/-- `Resource::try_set_reading`: fails if a writer is active, otherwise
increments `read_count`.  Returns the success flag and the updated
resource. -/
def Resource.try_set_reading (r : Resource) : Bool × Resource :=
  if r.write_count > 0 then
    (false, r)
  else
    (true, { r with read_count := r.read_count + 1 })

/-- `Resource::try_set_writing`: fails if any reader or writer is
active, otherwise increments `write_count`. -/
def Resource.try_set_writing (r : Resource) : Bool × Resource :=
  if r.read_count > 0 || r.write_count > 0 then
    (false, r)
  else
    (true, { r with write_count := r.write_count + 1 })

/-- `Resource::remove_reading`: decrements `read_count` only when it is
positive. -/
def Resource.remove_reading (r : Resource) : Resource :=
  if r.read_count > 0 then { r with read_count := r.read_count - 1 } else r

/-- `Resource::remove_writing`: decrements `write_count` only when it is
positive. -/
def Resource.remove_writing (r : Resource) : Resource :=
  if r.write_count > 0 then { r with write_count := r.write_count - 1 } else r

/-- `ResourceBox`: the pool, a vector of resources. -/
structure ResourceBox where
  resources : List Resource
deriving DecidableEq, Repr

/-- `ResourceBox::new`: `resources_len` fresh resources named
`Resource 1`, `Resource 2`, ... (the geometry computation is omitted). -/
def ResourceBox.new (resources_len : Nat) : ResourceBox :=
  { resources :=
      (List.range resources_len).map
        (fun i => Resource.new ("Resource " ++ toString (i + 1))) }

/-- `ResourceBox::try_set_reading`: delegates to the resource at `idx`;
an out-of-range index returns `false` and changes nothing. -/
def ResourceBox.try_set_reading (b : ResourceBox) (idx : Nat) :
    Bool × ResourceBox :=
  match b.resources[idx]? with
  | some r =>
      let p := r.try_set_reading
      (p.1, { resources := b.resources.set idx p.2 })
  | none => (false, b)

/-- `ResourceBox::try_set_writing`: delegates to the resource at `idx`;
an out-of-range index returns `false` and changes nothing. -/
def ResourceBox.try_set_writing (b : ResourceBox) (idx : Nat) :
    Bool × ResourceBox :=
  match b.resources[idx]? with
  | some r =>
      let p := r.try_set_writing
      (p.1, { resources := b.resources.set idx p.2 })
  | none => (false, b)

/-- `ResourceBox::remove_reading`: delegates to the resource at `idx`;
an out-of-range index is a no-op. -/
def ResourceBox.remove_reading (b : ResourceBox) (idx : Nat) : ResourceBox :=
  match b.resources[idx]? with
  | some r => { resources := b.resources.set idx r.remove_reading }
  | none => b

/-- `ResourceBox::remove_writing`: delegates to the resource at `idx`;
an out-of-range index is a no-op. -/
def ResourceBox.remove_writing (b : ResourceBox) (idx : Nat) : ResourceBox :=
  match b.resources[idx]? with
  | some r => { resources := b.resources.set idx r.remove_writing }
  | none => b

/-- `ThreadState` (src/threads.rs). -/
inductive ThreadState where
  | Reading
  | Writing
  | Waiting
  | Idle
deriving DecidableEq, Repr

/-- `ThreadInfo`: one simulated thread entity. -/
structure ThreadInfo where
  name : String
  state : ThreadState
  resource_in_use : Option Nat
deriving DecidableEq, Repr

/-- `ThreadsVisualizer`: the coordinator, a vector of thread entities
(layout fields omitted). -/
structure ThreadsVisualizer where
  threads : List ThreadInfo
deriving DecidableEq, Repr

/-- `ThreadsVisualizer::new`: `num_threads` entities, all `Idle` with no
held resource, named `Thread 1`, `Thread 2`, ... -/
def ThreadsVisualizer.new (num_threads : Nat) : ThreadsVisualizer :=
  { threads :=
      (List.range num_threads).map
        (fun i =>
          { name := "Thread " ++ toString (i + 1),
            state := ThreadState.Idle,
            resource_in_use := none }) }

/-- `ThreadsVisualizer::set_thread_resource_state` (the reconcile
operation): release the old hold according to the current state, apply
the requested state with the hold cleared, then attempt the requested
acquisition, downgrading to `Waiting` on failure.  Returns the updated
visualizer and pool. -/
def ThreadsVisualizer.set_thread_resource_state
    (v : ThreadsVisualizer) (resource_box : ResourceBox) (index : Nat)
    (new_state : ThreadState) (new_resource : Option Nat) :
    ThreadsVisualizer × ResourceBox :=
  match v.threads[index]? with
  | none => (v, resource_box)
  | some thread =>
      let box1 : ResourceBox :=
        match thread.resource_in_use with
        | some old_res =>
            match thread.state with
            | ThreadState.Reading => resource_box.remove_reading old_res
            | ThreadState.Writing => resource_box.remove_writing old_res
            | _ => resource_box
        | none => resource_box
      let thread1 : ThreadInfo :=
        { thread with resource_in_use := none, state := new_state }
      let step2 : ThreadInfo × ResourceBox :=
        match new_resource with
        | some res_idx =>
            match new_state with
            | ThreadState.Reading =>
                let p := box1.try_set_reading res_idx
                if p.1 then
                  ({ thread1 with resource_in_use := some res_idx }, p.2)
                else
                  ({ thread1 with state := ThreadState.Waiting }, p.2)
            | ThreadState.Writing =>
                let p := box1.try_set_writing res_idx
                if p.1 then
                  ({ thread1 with resource_in_use := some res_idx }, p.2)
                else
                  ({ thread1 with state := ThreadState.Waiting }, p.2)
            | _ => (thread1, box1)
        | none => (thread1, box1)
      ({ threads := v.threads.set index step2.1 }, step2.2)

/-- One iteration of the loop body of
`ThreadsVisualizer::update_threads_randomly`: draw a state from the four
variants, draw a resource index only for `Reading`/`Writing`, and
reconcile.  The random source is an injected stream `rng` read at
position `k`; `random_range(0..n)` is modelled as `rng k % n`. -/
def ThreadsVisualizer.update_one
    (rng : Nat → Nat) (total : Nat) (v : ThreadsVisualizer)
    (b : ResourceBox) (k : Nat) (i : Nat) :
    ThreadsVisualizer × ResourceBox × Nat :=
  let roll := rng k % 4
  let new_state :=
    if roll = 0 then ThreadState.Idle
    else if roll = 1 then ThreadState.Waiting
    else if roll = 2 then ThreadState.Reading
    else if roll = 3 then ThreadState.Writing
    else ThreadState.Idle
  if new_state = ThreadState.Reading || new_state = ThreadState.Writing then
    let new_res := some (rng (k + 1) % total)
    let p := v.set_thread_resource_state b i new_state new_res
    (p.1, p.2, k + 2)
  else
    let p := v.set_thread_resource_state b i new_state none
    (p.1, p.2, k + 1)

/-- The loop of `update_threads_randomly`, processing entities in index
order starting at `i`, with `fuel` entities left. -/
def ThreadsVisualizer.update_loop
    (rng : Nat → Nat) (total : Nat) :
    ThreadsVisualizer → ResourceBox → Nat → Nat → Nat →
      ThreadsVisualizer × ResourceBox × Nat
  | v, b, k, _, 0 => (v, b, k)
  | v, b, k, i, fuel + 1 =>
      let s := ThreadsVisualizer.update_one rng total v b k i
      ThreadsVisualizer.update_loop rng total s.1 s.2.1 s.2.2 (i + 1) fuel

/-- `ThreadsVisualizer::update_threads_randomly`: a complete no-op when
the pool is empty (the random stream position `k` is returned unchanged,
so no draw occurs); otherwise reconcile every entity with fresh random
draws. -/
def ThreadsVisualizer.update_threads_randomly
    (v : ThreadsVisualizer) (b : ResourceBox) (rng : Nat → Nat) (k : Nat) :
    ThreadsVisualizer × ResourceBox × Nat :=
  let total := b.resources.length
  if total = 0 then (v, b, k)
  else ThreadsVisualizer.update_loop rng total v b k 0 v.threads.length

/-- Iterating `update_threads_randomly` `n` times (the driver calls it
once per tick). -/
def ThreadsVisualizer.update_iter
    (rng : Nat → Nat) :
    Nat → ThreadsVisualizer × ResourceBox × Nat →
      ThreadsVisualizer × ResourceBox × Nat
  | 0, s => s
  | n + 1, s =>
      ThreadsVisualizer.update_iter rng n
        (ThreadsVisualizer.update_threads_randomly s.1 s.2.1 rng s.2.2)

/-- A pool operation, for stating properties of arbitrary call
sequences against `ResourceBox`. -/
inductive PoolOp where
  | acquireRead (idx : Nat)
  | acquireWrite (idx : Nat)
  | releaseRead (idx : Nat)
  | releaseWrite (idx : Nat)
deriving DecidableEq, Repr

/-- Apply one pool operation (the boolean result of the try-acquires is
discarded; only the state matters for the invariant). -/
def ResourceBox.applyOp (b : ResourceBox) (op : PoolOp) : ResourceBox :=
  match op with
  | PoolOp.acquireRead idx => (b.try_set_reading idx).2
  | PoolOp.acquireWrite idx => (b.try_set_writing idx).2
  | PoolOp.releaseRead idx => b.remove_reading idx
  | PoolOp.releaseWrite idx => b.remove_writing idx

/-- Apply a sequence of pool operations in order. -/
def ResourceBox.applyOps (b : ResourceBox) (ops : List PoolOp) : ResourceBox :=
  ops.foldl ResourceBox.applyOp b

/-- A reconcile request: entity index, requested state, requested
resource. -/
structure ReconcileCall where
  index : Nat
  new_state : ThreadState
  new_resource : Option Nat
deriving DecidableEq, Repr

/-- Apply one reconcile call to the coordinator/pool pair. -/
def applyCall (s : ThreadsVisualizer × ResourceBox) (c : ReconcileCall) :
    ThreadsVisualizer × ResourceBox :=
  s.1.set_thread_resource_state s.2 c.index c.new_state c.new_resource

/-- Apply a sequence of reconcile calls in order. -/
def applyCalls (s : ThreadsVisualizer × ResourceBox)
    (cs : List ReconcileCall) : ThreadsVisualizer × ResourceBox :=
  cs.foldl applyCall s

/-- The mutual exclusion invariant of one resource: at most one writer,
and no readers while a writer is active. -/
def Resource.mutexInv (r : Resource) : Prop :=
  r.write_count ≤ 1 ∧ (r.write_count > 0 → r.read_count = 0)

instance (r : Resource) : Decidable r.mutexInv := by
  unfold Resource.mutexInv; infer_instance

/-- The mutual exclusion invariant over the whole pool. -/
def ResourceBox.mutexInv (b : ResourceBox) : Prop :=
  ∀ r ∈ b.resources, r.mutexInv

instance (b : ResourceBox) : Decidable b.mutexInv := by
  unfold ResourceBox.mutexInv; infer_instance

/-- Whether entity `t` currently holds resource `j` in state `s`. -/
def ThreadInfo.holds (t : ThreadInfo) (j : Nat) (s : ThreadState) : Bool :=
  decide (t.resource_in_use = some j ∧ t.state = s)

/-- Number of entities holding resource `j` in state `s`. -/
def heldCount (ts : List ThreadInfo) (j : Nat) (s : ThreadState) : Nat :=
  ts.countP (fun t => t.holds j s)

/-- Conservation: for every resource of the pool, the number of entities
holding it as `Reading` equals its `read_count`, and likewise for
`Writing` and `write_count`. -/
def conserves (v : ThreadsVisualizer) (b : ResourceBox) : Prop :=
  ∀ j r, b.resources[j]? = some r →
    heldCount v.threads j ThreadState.Reading = r.read_count ∧
    heldCount v.threads j ThreadState.Writing = r.write_count

/-- The thread-entity invariant: a held resource implies the state is
`Reading` or `Writing` (so a `Waiting` entity holds nothing). -/
def threadInv (v : ThreadsVisualizer) : Prop :=
  ∀ t ∈ v.threads, t.resource_in_use.isSome = true →
    t.state = ThreadState.Reading ∨ t.state = ThreadState.Writing

/-- The release phase of `set_thread_resource_state` (the first
`if let` block of the Rust function) as a standalone function, used to
state the release-before-acquire property: release according to the
entity's current state, no release for `Waiting`/`Idle` or when nothing
is held. -/
def releasedBox (b : ResourceBox) (thread : ThreadInfo) : ResourceBox :=
  match thread.resource_in_use with
  | some old_res =>
      match thread.state with
      | ThreadState.Reading => b.remove_reading old_res
      | ThreadState.Writing => b.remove_writing old_res
      | _ => b
  | none => b

/-- A sequence of release calls against one resource: `true` stands for
`remove_reading`, `false` for `remove_writing`. -/
def applyReleases (r : Resource) (ops : List Bool) : Resource :=
  ops.foldl (fun r op => if op then r.remove_reading else r.remove_writing) r

/-! ### Generic list helper lemmas -/

/-- Membership from an indexed lookup. -/
theorem mem_of_lookup {α : Type} {l : List α} {i : Nat} {a : α}
    (h : l[i]? = some a) : a ∈ l := by
  rcases List.getElem?_eq_some_iff.mp h with ⟨hi, rfl⟩
  exact List.getElem_mem hi

/-- Setting an index to the value it already holds leaves the list
unchanged. -/
theorem set_lookup_self {α : Type} {l : List α} {i : Nat} {a : α}
    (h : l[i]? = some a) : l.set i a = l := by
  induction l generalizing i with
  | nil => simp at h
  | cons x xs ih =>
      cases i with
      | zero => simp at h; simp [h]
      | succ n => simp at h ⊢; exact ih h

/-- Effect on `countP` of replacing the element at index `i`, stated
additively to avoid truncated subtraction. -/
theorem countP_set_add {α : Type} (p : α → Bool) {l : List α} {i : Nat}
    {a : α} (b : α) (h : l[i]? = some a) :
    (l.set i b).countP p + (if p a then 1 else 0)
      = l.countP p + (if p b then 1 else 0) := by
  induction l generalizing i with
  | nil => simp at h
  | cons x xs ih =>
      cases i with
      | zero =>
          simp at h
          subst h
          simp [List.countP_cons]
          omega
      | succ n =>
          simp at h
          have := ih h
          simp [List.countP_cons]
          omega

/-- If the element at `i` satisfies `p`, the count is positive. -/
theorem countP_pos_of_lookup {α : Type} {p : α → Bool} {l : List α}
    {i : Nat} {a : α} (h : l[i]? = some a) (hp : p a = true) :
    0 < l.countP p :=
  List.countP_pos_iff.mpr ⟨a, mem_of_lookup h, hp⟩

/-! ### Lookup characterizations of the pool operations -/

/-- Pointwise effect of `ResourceBox.remove_reading` on the pool. -/
theorem remove_reading_lookup (b : ResourceBox) (idx j : Nat) :
    (b.remove_reading idx).resources[j]? =
      if idx = j then Option.map Resource.remove_reading b.resources[j]?
      else b.resources[j]? := by
  unfold ResourceBox.remove_reading
  cases hb : b.resources[idx]? with
  | none =>
      by_cases hij : idx = j
      · subst hij; simp [hb]
      · simp [hij]
  | some r =>
      by_cases hij : idx = j
      · subst hij
        simp [List.getElem?_set, (List.getElem?_eq_some_iff.mp hb).1, hb]
      · simp [List.getElem?_set_ne hij, hij]

/-- Pointwise effect of `ResourceBox.remove_writing` on the pool. -/
theorem remove_writing_lookup (b : ResourceBox) (idx j : Nat) :
    (b.remove_writing idx).resources[j]? =
      if idx = j then Option.map Resource.remove_writing b.resources[j]?
      else b.resources[j]? := by
  unfold ResourceBox.remove_writing
  cases hb : b.resources[idx]? with
  | none =>
      by_cases hij : idx = j
      · subst hij; simp [hb]
      · simp [hij]
  | some r =>
      by_cases hij : idx = j
      · subst hij
        simp [List.getElem?_set, (List.getElem?_eq_some_iff.mp hb).1, hb]
      · simp [List.getElem?_set_ne hij, hij]

/-- A failed `try_set_reading` leaves the pool unchanged. -/
theorem try_set_reading_fail {b : ResourceBox} {idx : Nat}
    (h : (b.try_set_reading idx).1 = false) :
    (b.try_set_reading idx).2 = b := by
  unfold ResourceBox.try_set_reading at h ⊢
  cases hb : b.resources[idx]? with
  | none => simp [hb]
  | some r =>
      simp [hb] at h ⊢
      unfold Resource.try_set_reading at h ⊢
      by_cases hw : r.write_count > 0
      · simp [hw]
        cases b with
        | mk rs => simp [set_lookup_self hb]
      · simp [hw] at h

/-- A successful `try_set_reading` requires an in-range, writer-free
resource and increments exactly its `read_count`. -/
theorem try_set_reading_success {b : ResourceBox} {idx : Nat}
    (h : (b.try_set_reading idx).1 = true) :
    ∃ r, b.resources[idx]? = some r ∧ r.write_count = 0 ∧
      (b.try_set_reading idx).2.resources =
        b.resources.set idx { r with read_count := r.read_count + 1 } := by
  unfold ResourceBox.try_set_reading at h ⊢
  cases hb : b.resources[idx]? with
  | none => simp [hb] at h
  | some r =>
      simp [hb] at h ⊢
      unfold Resource.try_set_reading at h ⊢
      by_cases hw : r.write_count > 0
      · simp [hw] at h
      · simp [hw]
        omega

/-- A failed `try_set_writing` leaves the pool unchanged. -/
theorem try_set_writing_fail {b : ResourceBox} {idx : Nat}
    (h : (b.try_set_writing idx).1 = false) :
    (b.try_set_writing idx).2 = b := by
  unfold ResourceBox.try_set_writing at h ⊢
  cases hb : b.resources[idx]? with
  | none => simp [hb]
  | some r =>
      simp [hb] at h ⊢
      unfold Resource.try_set_writing at h ⊢
      by_cases hrw : r.read_count > 0 || r.write_count > 0
      · simp [hrw]
        cases b with
        | mk rs => simp [set_lookup_self hb]
      · simp [hrw] at h

/-- A successful `try_set_writing` requires an in-range, completely free
resource and increments exactly its `write_count`. -/
theorem try_set_writing_success {b : ResourceBox} {idx : Nat}
    (h : (b.try_set_writing idx).1 = true) :
    ∃ r, b.resources[idx]? = some r ∧ r.read_count = 0 ∧ r.write_count = 0 ∧
      (b.try_set_writing idx).2.resources =
        b.resources.set idx { r with write_count := r.write_count + 1 } := by
  unfold ResourceBox.try_set_writing at h ⊢
  cases hb : b.resources[idx]? with
  | none => simp [hb] at h
  | some r =>
      simp [hb] at h ⊢
      unfold Resource.try_set_writing at h ⊢
      by_cases hrw : r.read_count > 0 || r.write_count > 0
      · simp [hrw] at h
      · simp at hrw
        simp [hrw]

/-! ### Preservation of the mutual exclusion invariant (C1) -/

/-- `try_set_reading` preserves the per-resource invariant. -/
theorem mutexInv_try_set_reading {r : Resource} (h : r.mutexInv) :
    (r.try_set_reading).2.mutexInv := by
  rcases h with ⟨h1, h2⟩
  unfold Resource.try_set_reading
  by_cases hw : r.write_count > 0
  · simp [hw]; exact ⟨h1, h2⟩
  · simp [hw, Resource.mutexInv]
    omega

/-- `try_set_writing` preserves the per-resource invariant. -/
theorem mutexInv_try_set_writing {r : Resource} (h : r.mutexInv) :
    (r.try_set_writing).2.mutexInv := by
  rcases h with ⟨h1, h2⟩
  unfold Resource.try_set_writing
  by_cases hrw : r.read_count > 0 || r.write_count > 0
  · simp [hrw]; exact ⟨h1, h2⟩
  · simp at hrw
    simp [hrw, Resource.mutexInv]

/-- `remove_reading` preserves the per-resource invariant. -/
theorem mutexInv_remove_reading {r : Resource} (h : r.mutexInv) :
    (r.remove_reading).mutexInv := by
  rcases h with ⟨h1, h2⟩
  unfold Resource.remove_reading
  by_cases hr : r.read_count > 0
  · simp [hr, Resource.mutexInv]
    omega
  · simp [hr]; exact ⟨h1, h2⟩

/-- `remove_writing` preserves the per-resource invariant. -/
theorem mutexInv_remove_writing {r : Resource} (h : r.mutexInv) :
    (r.remove_writing).mutexInv := by
  rcases h with ⟨h1, h2⟩
  unfold Resource.remove_writing
  by_cases hw : r.write_count > 0
  · simp [hw, Resource.mutexInv]
    omega
  · simp [hw]; exact ⟨h1, h2⟩

/-- Every pool operation preserves the pool-wide invariant. -/
theorem mutexInv_applyOp {b : ResourceBox} (h : b.mutexInv) (op : PoolOp) :
    (b.applyOp op).mutexInv := by
  cases op with
  | acquireRead idx =>
      intro r' hr'
      unfold ResourceBox.applyOp ResourceBox.try_set_reading at hr'
      cases hb : b.resources[idx]? with
      | none => simp [hb] at hr'; exact h r' hr'
      | some r =>
          simp [hb] at hr'
          rcases List.mem_or_eq_of_mem_set hr' with hm | rfl
          · exact h r' hm
          · exact mutexInv_try_set_reading (h r (mem_of_lookup hb))
  | acquireWrite idx =>
      intro r' hr'
      unfold ResourceBox.applyOp ResourceBox.try_set_writing at hr'
      cases hb : b.resources[idx]? with
      | none => simp [hb] at hr'; exact h r' hr'
      | some r =>
          simp [hb] at hr'
          rcases List.mem_or_eq_of_mem_set hr' with hm | rfl
          · exact h r' hm
          · exact mutexInv_try_set_writing (h r (mem_of_lookup hb))
  | releaseRead idx =>
      intro r' hr'
      unfold ResourceBox.applyOp ResourceBox.remove_reading at hr'
      cases hb : b.resources[idx]? with
      | none => simp [hb] at hr'; exact h r' hr'
      | some r =>
          simp [hb] at hr'
          rcases List.mem_or_eq_of_mem_set hr' with hm | rfl
          · exact h r' hm
          · exact mutexInv_remove_reading (h r (mem_of_lookup hb))
  | releaseWrite idx =>
      intro r' hr'
      unfold ResourceBox.applyOp ResourceBox.remove_writing at hr'
      cases hb : b.resources[idx]? with
      | none => simp [hb] at hr'; exact h r' hr'
      | some r =>
          simp [hb] at hr'
          rcases List.mem_or_eq_of_mem_set hr' with hm | rfl
          · exact h r' hm
          · exact mutexInv_remove_writing (h r (mem_of_lookup hb))

/-- Any sequence of pool operations preserves the pool-wide invariant. -/
theorem mutexInv_applyOps {b : ResourceBox} (h : b.mutexInv)
    (ops : List PoolOp) : (b.applyOps ops).mutexInv := by
  unfold ResourceBox.applyOps
  induction ops generalizing b with
  | nil => simpa using h
  | cons op ops ih =>
      rw [List.foldl_cons]
      exact ih (mutexInv_applyOp h op)

/-- A fresh pool satisfies the invariant. -/
theorem mutexInv_new (n : Nat) : (ResourceBox.new n).mutexInv := by
  intro r hr
  simp [ResourceBox.new] at hr
  rcases hr with ⟨i, _, rfl⟩
  simp [Resource.new, Resource.mutexInv]

/-- C1: starting from a freshly constructed pool (every resource at
`read_count = 0`, `write_count = 0`), after any sequence of
`try_acquire_read` / `try_acquire_write` / `release_read` /
`release_write` calls, every resource satisfies `write_count ≤ 1` and
`write_count > 0 → read_count = 0`. -/
theorem mutual_exclusion_invariant (len : Nat) (ops : List PoolOp) :
    ((ResourceBox.new len).applyOps ops).mutexInv :=
  mutexInv_applyOps (mutexInv_new len) ops

/-- Witness for C1 at a concrete pool and operation sequence. -/
theorem mutual_exclusion_invariant_witness :
    ((ResourceBox.new 2).applyOps
      [PoolOp.acquireRead 0, PoolOp.acquireWrite 1, PoolOp.acquireWrite 0,
       PoolOp.releaseRead 0, PoolOp.acquireWrite 0]).mutexInv :=
  mutual_exclusion_invariant 2
    [PoolOp.acquireRead 0, PoolOp.acquireWrite 1, PoolOp.acquireWrite 0,
     PoolOp.releaseRead 0, PoolOp.acquireWrite 0]

/-! ### Acquire contracts (C4, C5) and release idempotence (C8) -/

/-- C4: for an in-range index, `try_acquire_read` succeeds iff no writer
is active at the moment of the call; on success it replaces exactly the
target resource with its `read_count` incremented by one (all other
resources untouched), and on failure (`write_count > 0`) the pool is
returned unchanged. -/
theorem try_acquire_read_contract (b : ResourceBox) (idx : Nat)
    (r : Resource) (h : b.resources[idx]? = some r) :
    (((b.try_set_reading idx).1 = true) ↔ r.write_count = 0) ∧
    (r.write_count = 0 →
      (b.try_set_reading idx).2.resources =
        b.resources.set idx { r with read_count := r.read_count + 1 }) ∧
    (r.write_count > 0 → (b.try_set_reading idx).2 = b) := by
  refine ⟨?_, ?_, ?_⟩
  · unfold ResourceBox.try_set_reading
    simp [h]
    unfold Resource.try_set_reading
    by_cases hw : r.write_count > 0 <;> simp [hw] <;> omega
  · intro h0
    unfold ResourceBox.try_set_reading
    simp [h]
    unfold Resource.try_set_reading
    simp [h0]
  · intro h0
    have hflag : (b.try_set_reading idx).1 = false := by
      unfold ResourceBox.try_set_reading
      simp [h]
      unfold Resource.try_set_reading
      simp [h0]
    exact try_set_reading_fail hflag

/-- Witness for C4 at a concrete pool. -/
theorem try_acquire_read_contract_witness :
    ((((ResourceBox.new 1).try_set_reading 0).1 = true) ↔
      (Resource.new "Resource 1").write_count = 0) :=
  (try_acquire_read_contract (ResourceBox.new 1) 0
    (Resource.new "Resource 1") rfl).1

/-- C5: for an in-range index, `try_acquire_write` succeeds iff both
counters are zero at the moment of the call; on success it replaces
exactly the target resource with `write_count` set to `1` (all other
resources untouched), and otherwise the pool is returned unchanged. -/
theorem try_acquire_write_contract (b : ResourceBox) (idx : Nat)
    (r : Resource) (h : b.resources[idx]? = some r) :
    (((b.try_set_writing idx).1 = true) ↔
      (r.read_count = 0 ∧ r.write_count = 0)) ∧
    (r.read_count = 0 ∧ r.write_count = 0 →
      (b.try_set_writing idx).2.resources =
        b.resources.set idx { r with write_count := 1 }) ∧
    (¬(r.read_count = 0 ∧ r.write_count = 0) →
      (b.try_set_writing idx).2 = b) := by
  refine ⟨?_, ?_, ?_⟩
  · unfold ResourceBox.try_set_writing
    simp [h]
    unfold Resource.try_set_writing
    by_cases hrw : r.read_count > 0 || r.write_count > 0 <;>
      simp at hrw <;> simp [hrw] <;> omega
  · intro h0
    unfold ResourceBox.try_set_writing
    simp [h]
    unfold Resource.try_set_writing
    simp [h0.1, h0.2]
  · intro h0
    have hflag : (b.try_set_writing idx).1 = false := by
      unfold ResourceBox.try_set_writing
      simp [h]
      unfold Resource.try_set_writing
      have hrw : r.read_count > 0 || r.write_count > 0 := by
        simp
        omega
      simp [hrw]
    exact try_set_writing_fail hflag

/-- Witness for C5 at a concrete pool. -/
theorem try_acquire_write_contract_witness :
    ((((ResourceBox.new 1).try_set_writing 0).1 = true) ↔
      ((Resource.new "Resource 1").read_count = 0 ∧
        (Resource.new "Resource 1").write_count = 0)) :=
  (try_acquire_write_contract (ResourceBox.new 1) 0
    (Resource.new "Resource 1") rfl).1

/-- `remove_reading` unconditionally computes truncated subtraction on
`read_count` (the guard is exactly the truncation at zero). -/
theorem remove_reading_read_count (r : Resource) :
    (r.remove_reading).read_count = r.read_count - 1 := by
  unfold Resource.remove_reading
  by_cases hr : r.read_count > 0
  · simp [hr]
  · simp [hr]; omega

/-- `remove_reading` never touches `write_count`. -/
theorem remove_reading_write_count (r : Resource) :
    (r.remove_reading).write_count = r.write_count := by
  unfold Resource.remove_reading
  by_cases hr : r.read_count > 0 <;> simp [hr]

/-- `remove_writing` unconditionally computes truncated subtraction on
`write_count`. -/
theorem remove_writing_write_count (r : Resource) :
    (r.remove_writing).write_count = r.write_count - 1 := by
  unfold Resource.remove_writing
  by_cases hw : r.write_count > 0
  · simp [hw]
  · simp [hw]; omega

/-- `remove_writing` never touches `read_count`. -/
theorem remove_writing_read_count (r : Resource) :
    (r.remove_writing).read_count = r.read_count := by
  unfold Resource.remove_writing
  by_cases hw : r.write_count > 0 <;> simp [hw]

/-- C8: releases are guarded and idempotent at zero.  After any sequence
of release calls the counters are the truncated (never negative)
differences: `read_count - #release_read` and
`write_count - #release_write` in `Nat`, where subtraction floors at
zero; and a release whose counter is already zero is a complete no-op on
the resource. -/
theorem idempotent_release (r : Resource) (ops : List Bool) :
    (applyReleases r ops).read_count = r.read_count - ops.count true ∧
    (applyReleases r ops).write_count = r.write_count - ops.count false ∧
    (r.read_count = 0 → r.remove_reading = r) ∧
    (r.write_count = 0 → r.remove_writing = r) := by
  refine ⟨?_, ?_, ?_, ?_⟩
  · induction ops generalizing r with
    | nil => simp [applyReleases]
    | cons op ops ih =>
        unfold applyReleases at ih ⊢
        rw [List.foldl_cons]
        cases op
        · simp only [if_neg (by simp : ¬(false = true))]
          rw [ih]
          simp [remove_writing_read_count, List.count_cons]
        · simp only [if_pos rfl]
          rw [ih]
          simp [remove_reading_read_count, List.count_cons]
          omega
  · induction ops generalizing r with
    | nil => simp [applyReleases]
    | cons op ops ih =>
        unfold applyReleases at ih ⊢
        rw [List.foldl_cons]
        cases op
        · simp only [if_neg (by simp : ¬(false = true))]
          rw [ih]
          simp [remove_writing_write_count, List.count_cons]
          omega
        · simp only [if_pos rfl]
          rw [ih]
          simp [remove_reading_write_count, List.count_cons]
  · intro h0
    unfold Resource.remove_reading
    simp [h0]
  · intro h0
    unfold Resource.remove_writing
    simp [h0]

/-- Witness for C8: double release on an already-zero counter at a
concrete resource. -/
theorem idempotent_release_witness :
    ((applyReleases ⟨"R", 1, 0⟩ [true, true, false]).read_count
        = (⟨"R", 1, 0⟩ : Resource).read_count - [true, true, false].count true) ∧
    ((⟨"R", 1, 0⟩ : Resource).remove_writing = ⟨"R", 1, 0⟩) :=
  ⟨(idempotent_release ⟨"R", 1, 0⟩ [true, true, false]).1,
   (idempotent_release ⟨"R", 1, 0⟩ []).2.2.2 rfl⟩

/-! ### Counting lemmas for the conservation invariant -/

/-- An entity holding nothing matches no (resource, state) pair. -/
theorem holds_of_none {t : ThreadInfo} (h : t.resource_in_use = none)
    (j : Nat) (s : ThreadState) : t.holds j s = false := by
  simp [ThreadInfo.holds, h]

/-- Replacing an entity by one matching the same (resource, state) pairs
preserves conservation. -/
theorem conserves_set_same_holds {v : ThreadsVisualizer} {b : ResourceBox}
    (h : conserves v b) {i : Nat} {t : ThreadInfo} (t' : ThreadInfo)
    (ht : v.threads[i]? = some t)
    (hR : ∀ j, t'.holds j ThreadState.Reading = t.holds j ThreadState.Reading)
    (hW : ∀ j, t'.holds j ThreadState.Writing = t.holds j ThreadState.Writing) :
    conserves ⟨v.threads.set i t'⟩ b := by
  intro j r hjr
  obtain ⟨c1, c2⟩ := h j r hjr
  have h1 := countP_set_add (fun x => x.holds j ThreadState.Reading) t' ht
  have h2 := countP_set_add (fun x => x.holds j ThreadState.Writing) t' ht
  simp only [hR j] at h1
  simp only [hW j] at h2
  unfold heldCount at c1 c2 ⊢
  simp only
  constructor <;> omega

/-- Releasing a held read (entity `i` holds `old` as `Reading`) and
clearing the entity preserves conservation. -/
theorem conserves_release_read {v : ThreadsVisualizer} {b : ResourceBox}
    {i old : Nat} {t : ThreadInfo} (t' : ThreadInfo)
    (h : conserves v b) (ht : v.threads[i]? = some t)
    (hold : t.resource_in_use = some old)
    (hstate : t.state = ThreadState.Reading)
    (ht' : t'.resource_in_use = none) :
    conserves ⟨v.threads.set i t'⟩ (b.remove_reading old) := by
  intro j r' hjr'
  rw [remove_reading_lookup] at hjr'
  have h1 := countP_set_add (fun x => x.holds j ThreadState.Reading) t' ht
  have h2 := countP_set_add (fun x => x.holds j ThreadState.Writing) t' ht
  simp only [holds_of_none ht'] at h1 h2
  by_cases hij : old = j
  · subst hij
    cases hb : b.resources[old]? with
    | none => simp [hb] at hjr'
    | some r =>
        simp only [hb, if_true, Option.map_some', Option.some.injEq] at hjr'
        subst hjr'
        obtain ⟨c1, c2⟩ := h old r hb
        have hpos : 0 < List.countP
            (fun x => x.holds old ThreadState.Reading) v.threads :=
          countP_pos_of_lookup ht
            (by simp [ThreadInfo.holds, hold, hstate])
        simp only [show t.holds old ThreadState.Reading = true from
            by simp [ThreadInfo.holds, hold, hstate],
          show t.holds old ThreadState.Writing = false from
            by simp [ThreadInfo.holds, hold, hstate]] at h1 h2
        simp only [if_true, if_pos rfl, if_neg (by simp : ¬(false = true))] at h1 h2
        unfold heldCount at c1 c2 ⊢
        simp only
        rw [remove_reading_read_count, remove_reading_write_count]
        constructor <;> omega
  · rw [if_neg hij] at hjr'
    obtain ⟨c1, c2⟩ := h j r' hjr'
    simp only [show t.holds j ThreadState.Reading = false from
        by simp [ThreadInfo.holds, hold, hij],
      show t.holds j ThreadState.Writing = false from
        by simp [ThreadInfo.holds, hold, hij]] at h1 h2
    unfold heldCount at c1 c2 ⊢
    simp only
    constructor <;> omega

/-- Releasing a held write (entity `i` holds `old` as `Writing`) and
clearing the entity preserves conservation. -/
theorem conserves_release_write {v : ThreadsVisualizer} {b : ResourceBox}
    {i old : Nat} {t : ThreadInfo} (t' : ThreadInfo)
    (h : conserves v b) (ht : v.threads[i]? = some t)
    (hold : t.resource_in_use = some old)
    (hstate : t.state = ThreadState.Writing)
    (ht' : t'.resource_in_use = none) :
    conserves ⟨v.threads.set i t'⟩ (b.remove_writing old) := by
  intro j r' hjr'
  rw [remove_writing_lookup] at hjr'
  have h1 := countP_set_add (fun x => x.holds j ThreadState.Reading) t' ht
  have h2 := countP_set_add (fun x => x.holds j ThreadState.Writing) t' ht
  simp only [holds_of_none ht'] at h1 h2
  by_cases hij : old = j
  · subst hij
    cases hb : b.resources[old]? with
    | none => simp [hb] at hjr'
    | some r =>
        simp only [hb, if_true, Option.map_some', Option.some.injEq] at hjr'
        subst hjr'
        obtain ⟨c1, c2⟩ := h old r hb
        have hpos : 0 < List.countP
            (fun x => x.holds old ThreadState.Writing) v.threads :=
          countP_pos_of_lookup ht
            (by simp [ThreadInfo.holds, hold, hstate])
        simp only [show t.holds old ThreadState.Writing = true from
            by simp [ThreadInfo.holds, hold, hstate],
          show t.holds old ThreadState.Reading = false from
            by simp [ThreadInfo.holds, hold, hstate]] at h1 h2
        simp only [if_true, if_pos rfl, if_neg (by simp : ¬(false = true))] at h1 h2
        unfold heldCount at c1 c2 ⊢
        simp only
        rw [remove_writing_read_count, remove_writing_write_count]
        constructor <;> omega
  · rw [if_neg hij] at hjr'
    obtain ⟨c1, c2⟩ := h j r' hjr'
    simp only [show t.holds j ThreadState.Reading = false from
        by simp [ThreadInfo.holds, hold, hij],
      show t.holds j ThreadState.Writing = false from
        by simp [ThreadInfo.holds, hold, hij]] at h1 h2
    unfold heldCount at c1 c2 ⊢
    simp only
    constructor <;> omega

/-- Granting a read to entity `i` (currently holding nothing, state
`Reading`) while incrementing the target resource preserves
conservation. -/
theorem conserves_acquire_read {v : ThreadsVisualizer} {b : ResourceBox}
    {i ridx : Nat} {t : ThreadInfo} {r : Resource}
    (h : conserves v b) (ht : v.threads[i]? = some t)
    (hnone : t.resource_in_use = none)
    (hstate : t.state = ThreadState.Reading)
    (hr : b.resources[ridx]? = some r) :
    conserves ⟨v.threads.set i { t with resource_in_use := some ridx }⟩
      ⟨b.resources.set ridx { r with read_count := r.read_count + 1 }⟩ := by
  intro j r' hjr'
  simp only [List.getElem?_set] at hjr'
  have h1 := countP_set_add (fun x => x.holds j ThreadState.Reading)
    { t with resource_in_use := some ridx } ht
  have h2 := countP_set_add (fun x => x.holds j ThreadState.Writing)
    { t with resource_in_use := some ridx } ht
  simp only [holds_of_none hnone] at h1 h2
  by_cases hij : ridx = j
  · subst hij
    rw [if_pos rfl, if_pos (List.getElem?_eq_some_iff.mp hr).1] at hjr'
    obtain rfl : ({ r with read_count := r.read_count + 1 } : Resource) = r' :=
      by injection hjr'
    obtain ⟨c1, c2⟩ := h ridx r hr
    simp only [show ({ t with resource_in_use := some ridx } :
          ThreadInfo).holds ridx ThreadState.Reading = true from
        by simp [ThreadInfo.holds, hstate],
      show ({ t with resource_in_use := some ridx } :
          ThreadInfo).holds ridx ThreadState.Writing = false from
        by simp [ThreadInfo.holds, hstate]] at h1 h2
    simp only [if_true, if_neg (by simp : ¬(false = true))] at h1 h2
    unfold heldCount at c1 c2 ⊢
    simp only
    constructor <;> omega
  · rw [if_neg hij] at hjr'
    obtain ⟨c1, c2⟩ := h j r' hjr'
    simp only [show ({ t with resource_in_use := some ridx } :
          ThreadInfo).holds j ThreadState.Reading = false from
        by simp [ThreadInfo.holds, hij],
      show ({ t with resource_in_use := some ridx } :
          ThreadInfo).holds j ThreadState.Writing = false from
        by simp [ThreadInfo.holds, hij]] at h1 h2
    unfold heldCount at c1 c2 ⊢
    simp only
    constructor <;> omega

/-- Granting a write to entity `i` (currently holding nothing, state
`Writing`) while incrementing the target resource preserves
conservation. -/
theorem conserves_acquire_write {v : ThreadsVisualizer} {b : ResourceBox}
    {i ridx : Nat} {t : ThreadInfo} {r : Resource}
    (h : conserves v b) (ht : v.threads[i]? = some t)
    (hnone : t.resource_in_use = none)
    (hstate : t.state = ThreadState.Writing)
    (hr : b.resources[ridx]? = some r) :
    conserves ⟨v.threads.set i { t with resource_in_use := some ridx }⟩
      ⟨b.resources.set ridx { r with write_count := r.write_count + 1 }⟩ := by
  intro j r' hjr'
  simp only [List.getElem?_set] at hjr'
  have h1 := countP_set_add (fun x => x.holds j ThreadState.Reading)
    { t with resource_in_use := some ridx } ht
  have h2 := countP_set_add (fun x => x.holds j ThreadState.Writing)
    { t with resource_in_use := some ridx } ht
  simp only [holds_of_none hnone] at h1 h2
  by_cases hij : ridx = j
  · subst hij
    rw [if_pos rfl, if_pos (List.getElem?_eq_some_iff.mp hr).1] at hjr'
    obtain rfl : ({ r with write_count := r.write_count + 1 } : Resource) = r' :=
      by injection hjr'
    obtain ⟨c1, c2⟩ := h ridx r hr
    simp only [show ({ t with resource_in_use := some ridx } :
          ThreadInfo).holds ridx ThreadState.Writing = true from
        by simp [ThreadInfo.holds, hstate],
      show ({ t with resource_in_use := some ridx } :
          ThreadInfo).holds ridx ThreadState.Reading = false from
        by simp [ThreadInfo.holds, hstate]] at h1 h2
    simp only [if_true, if_neg (by simp : ¬(false = true))] at h1 h2
    unfold heldCount at c1 c2 ⊢
    simp only
    constructor <;> omega
  · rw [if_neg hij] at hjr'
    obtain ⟨c1, c2⟩ := h j r' hjr'
    simp only [show ({ t with resource_in_use := some ridx } :
          ThreadInfo).holds j ThreadState.Reading = false from
        by simp [ThreadInfo.holds, hij],
      show ({ t with resource_in_use := some ridx } :
          ThreadInfo).holds j ThreadState.Writing = false from
        by simp [ThreadInfo.holds, hij]] at h1 h2
    unfold heldCount at c1 c2 ⊢
    simp only
    constructor <;> omega

/-! ### Shape lemmas for the reconcile operation -/

/-- An out-of-range entity index makes reconcile a no-op. -/
theorem reconcile_lookup_none {v : ThreadsVisualizer} {b : ResourceBox}
    {i : Nat} (ht : v.threads[i]? = none) (s : ThreadState)
    (o : Option Nat) :
    v.set_thread_resource_state b i s o = (v, b) := by
  unfold ThreadsVisualizer.set_thread_resource_state
  rw [ht]

/-- When no acquisition is attempted (no requested resource, or a
requested state other than `Reading`/`Writing`), reconcile releases the
old hold, clears the held resource and applies the requested state. -/
theorem reconcile_no_acquire {v : ThreadsVisualizer} {b : ResourceBox}
    {i : Nat} {t : ThreadInfo} (ht : v.threads[i]? = some t)
    {s : ThreadState} {o : Option Nat}
    (hos : o = none ∨ s = ThreadState.Waiting ∨ s = ThreadState.Idle) :
    v.set_thread_resource_state b i s o =
      (⟨v.threads.set i { t with resource_in_use := none, state := s }⟩,
        releasedBox b t) := by
  unfold ThreadsVisualizer.set_thread_resource_state releasedBox
  rw [ht]
  rcases hos with rfl | rfl | rfl
  · rfl
  · cases o <;> rfl
  · cases o <;> rfl

/-- Reconcile with a requested `Reading` on resource `ridx`: the read
acquire is attempted on the released pool; on success the entity holds
`ridx` as `Reading`, on failure it is downgraded to `Waiting` holding
nothing. -/
theorem reconcile_read_some {v : ThreadsVisualizer} {b : ResourceBox}
    {i : Nat} {t : ThreadInfo} (ht : v.threads[i]? = some t) (ridx : Nat) :
    v.set_thread_resource_state b i ThreadState.Reading (some ridx) =
      if ((releasedBox b t).try_set_reading ridx).1 then
        (⟨v.threads.set i
            { t with resource_in_use := some ridx, state := ThreadState.Reading }⟩,
          ((releasedBox b t).try_set_reading ridx).2)
      else
        (⟨v.threads.set i
            { t with resource_in_use := none, state := ThreadState.Waiting }⟩,
          ((releasedBox b t).try_set_reading ridx).2) := by
  cases hold : t.resource_in_use with
  | none =>
      have hrb : releasedBox b t = b := by unfold releasedBox; rw [hold]
      rw [hrb]
      simp only [ThreadsVisualizer.set_thread_resource_state, ht, hold]
      by_cases hc : (b.try_set_reading ridx).1 <;> simp [hc]
  | some old =>
      cases hstate : t.state with
      | Reading =>
          have hrb : releasedBox b t = b.remove_reading old := by
            unfold releasedBox; rw [hold, hstate]
          rw [hrb]
          simp only [ThreadsVisualizer.set_thread_resource_state, ht, hold,
            hstate]
          by_cases hc : ((b.remove_reading old).try_set_reading ridx).1 <;>
            simp [hc]
      | Writing =>
          have hrb : releasedBox b t = b.remove_writing old := by
            unfold releasedBox; rw [hold, hstate]
          rw [hrb]
          simp only [ThreadsVisualizer.set_thread_resource_state, ht, hold,
            hstate]
          by_cases hc : ((b.remove_writing old).try_set_reading ridx).1 <;>
            simp [hc]
      | Waiting =>
          have hrb : releasedBox b t = b := by
            unfold releasedBox; rw [hold, hstate]
          rw [hrb]
          simp only [ThreadsVisualizer.set_thread_resource_state, ht, hold,
            hstate]
          by_cases hc : (b.try_set_reading ridx).1 <;> simp [hc]
      | Idle =>
          have hrb : releasedBox b t = b := by
            unfold releasedBox; rw [hold, hstate]
          rw [hrb]
          simp only [ThreadsVisualizer.set_thread_resource_state, ht, hold,
            hstate]
          by_cases hc : (b.try_set_reading ridx).1 <;> simp [hc]

/-- Reconcile with a requested `Writing` on resource `ridx`: the write
acquire is attempted on the released pool; on success the entity holds
`ridx` as `Writing`, on failure it is downgraded to `Waiting` holding
nothing. -/
theorem reconcile_write_some {v : ThreadsVisualizer} {b : ResourceBox}
    {i : Nat} {t : ThreadInfo} (ht : v.threads[i]? = some t) (ridx : Nat) :
    v.set_thread_resource_state b i ThreadState.Writing (some ridx) =
      if ((releasedBox b t).try_set_writing ridx).1 then
        (⟨v.threads.set i
            { t with resource_in_use := some ridx, state := ThreadState.Writing }⟩,
          ((releasedBox b t).try_set_writing ridx).2)
      else
        (⟨v.threads.set i
            { t with resource_in_use := none, state := ThreadState.Waiting }⟩,
          ((releasedBox b t).try_set_writing ridx).2) := by
  cases hold : t.resource_in_use with
  | none =>
      have hrb : releasedBox b t = b := by unfold releasedBox; rw [hold]
      rw [hrb]
      simp only [ThreadsVisualizer.set_thread_resource_state, ht, hold]
      by_cases hc : (b.try_set_writing ridx).1 <;> simp [hc]
  | some old =>
      cases hstate : t.state with
      | Reading =>
          have hrb : releasedBox b t = b.remove_reading old := by
            unfold releasedBox; rw [hold, hstate]
          rw [hrb]
          simp only [ThreadsVisualizer.set_thread_resource_state, ht, hold,
            hstate]
          by_cases hc : ((b.remove_reading old).try_set_writing ridx).1 <;>
            simp [hc]
      | Writing =>
          have hrb : releasedBox b t = b.remove_writing old := by
            unfold releasedBox; rw [hold, hstate]
          rw [hrb]
          simp only [ThreadsVisualizer.set_thread_resource_state, ht, hold,
            hstate]
          by_cases hc : ((b.remove_writing old).try_set_writing ridx).1 <;>
            simp [hc]
      | Waiting =>
          have hrb : releasedBox b t = b := by
            unfold releasedBox; rw [hold, hstate]
          rw [hrb]
          simp only [ThreadsVisualizer.set_thread_resource_state, ht, hold,
            hstate]
          by_cases hc : (b.try_set_writing ridx).1 <;> simp [hc]
      | Idle =>
          have hrb : releasedBox b t = b := by
            unfold releasedBox; rw [hold, hstate]
          rw [hrb]
          simp only [ThreadsVisualizer.set_thread_resource_state, ht, hold,
            hstate]
          by_cases hc : (b.try_set_writing ridx).1 <;> simp [hc]

/-- The release phase preserves conservation, for any requested state
applied to the cleared entity. -/
theorem conserves_released {v : ThreadsVisualizer} {b : ResourceBox}
    {i : Nat} {t : ThreadInfo} (s : ThreadState)
    (h : conserves v b) (ht : v.threads[i]? = some t) :
    conserves
      ⟨v.threads.set i { t with resource_in_use := none, state := s }⟩
      (releasedBox b t) := by
  cases hold : t.resource_in_use with
  | none =>
      have hrb : releasedBox b t = b := by unfold releasedBox; rw [hold]
      rw [hrb]
      exact conserves_set_same_holds h _ ht
        (fun j => by simp [ThreadInfo.holds, hold])
        (fun j => by simp [ThreadInfo.holds, hold])
  | some old =>
      cases hstate : t.state with
      | Reading =>
          have hrb : releasedBox b t = b.remove_reading old := by
            unfold releasedBox; rw [hold, hstate]
          rw [hrb]
          exact conserves_release_read _ h ht hold hstate rfl
      | Writing =>
          have hrb : releasedBox b t = b.remove_writing old := by
            unfold releasedBox; rw [hold, hstate]
          rw [hrb]
          exact conserves_release_write _ h ht hold hstate rfl
      | Waiting =>
          have hrb : releasedBox b t = b := by
            unfold releasedBox; rw [hold, hstate]
          rw [hrb]
          exact conserves_set_same_holds h _ ht
            (fun j => by simp [ThreadInfo.holds, hstate])
            (fun j => by simp [ThreadInfo.holds, hstate])
      | Idle =>
          have hrb : releasedBox b t = b := by
            unfold releasedBox; rw [hold, hstate]
          rw [hrb]
          exact conserves_set_same_holds h _ ht
            (fun j => by simp [ThreadInfo.holds, hstate])
            (fun j => by simp [ThreadInfo.holds, hstate])

/-- Looking up the cleared entity in the mid-state. -/
theorem lookup_set_self {l : List ThreadInfo} {i : Nat} {t : ThreadInfo}
    (ht : l[i]? = some t) (t' : ThreadInfo) :
    (l.set i t')[i]? = some t' := by
  rw [List.getElem?_set]
  simp [(List.getElem?_eq_some_iff.mp ht).1]

/-- One reconcile call preserves conservation. -/
theorem conserves_step (v : ThreadsVisualizer) (b : ResourceBox) (i : Nat)
    (s : ThreadState) (o : Option Nat) (h : conserves v b) :
    conserves (v.set_thread_resource_state b i s o).1
      (v.set_thread_resource_state b i s o).2 := by
  cases ht : v.threads[i]? with
  | none =>
      rw [reconcile_lookup_none ht s o]
      exact h
  | some t =>
      cases o with
      | none =>
          rw [reconcile_no_acquire ht (Or.inl rfl)]
          exact conserves_released s h ht
      | some ridx =>
          cases s with
          | Reading =>
              rw [reconcile_read_some ht ridx]
              have hmid := conserves_released ThreadState.Reading h ht
              have hmidlook := lookup_set_self ht
                { t with resource_in_use := none, state := ThreadState.Reading }
              by_cases hflag : ((releasedBox b t).try_set_reading ridx).1
              · rw [if_pos hflag]
                obtain ⟨r, hr, _, hres⟩ := try_set_reading_success hflag
                have hbox : ((releasedBox b t).try_set_reading ridx).2 =
                    ⟨(releasedBox b t).resources.set ridx
                      { r with read_count := r.read_count + 1 }⟩ :=
                  congrArg ResourceBox.mk hres
                rw [hbox]
                have hfin := conserves_acquire_read hmid hmidlook rfl rfl hr
                rw [List.set_set] at hfin
                exact hfin
              · rw [if_neg hflag]
                have hbox := try_set_reading_fail
                  (by simpa using hflag)
                rw [hbox]
                have hfin := conserves_set_same_holds hmid
                  { t with resource_in_use := none, state := ThreadState.Waiting }
                  hmidlook
                  (fun j => by simp [ThreadInfo.holds])
                  (fun j => by simp [ThreadInfo.holds])
                rw [List.set_set] at hfin
                exact hfin
          | Writing =>
              rw [reconcile_write_some ht ridx]
              have hmid := conserves_released ThreadState.Writing h ht
              have hmidlook := lookup_set_self ht
                { t with resource_in_use := none, state := ThreadState.Writing }
              by_cases hflag : ((releasedBox b t).try_set_writing ridx).1
              · rw [if_pos hflag]
                obtain ⟨r, hr, _, _, hres⟩ := try_set_writing_success hflag
                have hbox : ((releasedBox b t).try_set_writing ridx).2 =
                    ⟨(releasedBox b t).resources.set ridx
                      { r with write_count := r.write_count + 1 }⟩ :=
                  congrArg ResourceBox.mk hres
                rw [hbox]
                have hfin := conserves_acquire_write hmid hmidlook rfl rfl hr
                rw [List.set_set] at hfin
                exact hfin
              · rw [if_neg hflag]
                have hbox := try_set_writing_fail
                  (by simpa using hflag)
                rw [hbox]
                have hfin := conserves_set_same_holds hmid
                  { t with resource_in_use := none, state := ThreadState.Waiting }
                  hmidlook
                  (fun j => by simp [ThreadInfo.holds])
                  (fun j => by simp [ThreadInfo.holds])
                rw [List.set_set] at hfin
                exact hfin
          | Waiting =>
              rw [reconcile_no_acquire ht (Or.inr (Or.inl rfl))]
              exact conserves_released ThreadState.Waiting h ht
          | Idle =>
              rw [reconcile_no_acquire ht (Or.inr (Or.inr rfl))]
              exact conserves_released ThreadState.Idle h ht

/-- The freshly constructed coordinator and pool conserve counts (all
zero on both sides). -/
theorem conserves_new (n m : Nat) :
    conserves (ThreadsVisualizer.new n) (ResourceBox.new m) := by
  intro j r hjr
  have hcounts : r.read_count = 0 ∧ r.write_count = 0 := by
    unfold ResourceBox.new at hjr
    simp only [List.getElem?_map] at hjr
    cases hjm : (List.range m)[j]? with
    | none => rw [hjm] at hjr; simp at hjr
    | some x =>
        rw [hjm] at hjr
        simp at hjr
        rw [← hjr]
        simp [Resource.new]
  have hzero : ∀ s', heldCount (ThreadsVisualizer.new n).threads j s' = 0 := by
    intro s'
    unfold heldCount
    rw [List.countP_eq_zero]
    intro x hx
    unfold ThreadsVisualizer.new at hx
    simp at hx
    rcases hx with ⟨_, _, rfl⟩
    simp [ThreadInfo.holds]
  rw [hzero, hzero, hcounts.1, hcounts.2]
  exact ⟨rfl, rfl⟩

/-- Any sequence of reconcile calls preserves conservation. -/
theorem conserves_applyCalls {p : ThreadsVisualizer × ResourceBox}
    (h : conserves p.1 p.2) (cs : List ReconcileCall) :
    conserves (applyCalls p cs).1 (applyCalls p cs).2 := by
  induction cs generalizing p with
  | nil => simpa [applyCalls] using h
  | cons c cs ih =>
      unfold applyCalls at ih ⊢
      rw [List.foldl_cons]
      exact ih (conserves_step p.1 p.2 c.index c.new_state c.new_resource h)

/-- C2: starting from a freshly constructed coordinator (all entities
`Idle`, holding nothing) and pool (all counters zero), after any
sequence of reconcile calls, every resource's `read_count` equals the
number of entities holding it as `Reading`, and its `write_count` equals
the number of entities holding it as `Writing`. -/
theorem conservation_invariant (n m : Nat) (cs : List ReconcileCall) :
    conserves (applyCalls (ThreadsVisualizer.new n, ResourceBox.new m) cs).1
      (applyCalls (ThreadsVisualizer.new n, ResourceBox.new m) cs).2 :=
  conserves_applyCalls (conserves_new n m) cs

/-- Witness for C2 at a concrete start state and call sequence. -/
theorem conservation_invariant_witness :
    conserves
      (applyCalls (ThreadsVisualizer.new 2, ResourceBox.new 2)
        [⟨0, ThreadState.Writing, some 0⟩, ⟨1, ThreadState.Reading, some 0⟩,
         ⟨0, ThreadState.Idle, none⟩]).1
      (applyCalls (ThreadsVisualizer.new 2, ResourceBox.new 2)
        [⟨0, ThreadState.Writing, some 0⟩, ⟨1, ThreadState.Reading, some 0⟩,
         ⟨0, ThreadState.Idle, none⟩]).2 :=
  conservation_invariant 2 2
    [⟨0, ThreadState.Writing, some 0⟩, ⟨1, ThreadState.Reading, some 0⟩,
     ⟨0, ThreadState.Idle, none⟩]

/-! ### The thread-entity invariant (C7) -/

/-- The fresh coordinator satisfies the entity invariant. -/
theorem threadInv_new (n : Nat) : threadInv (ThreadsVisualizer.new n) := by
  intro t ht hsome
  unfold ThreadsVisualizer.new at ht
  simp at ht
  rcases ht with ⟨_, _, rfl⟩
  simp at hsome

/-- One reconcile call preserves the entity invariant. -/
theorem threadInv_step (v : ThreadsVisualizer) (b : ResourceBox) (i : Nat)
    (s : ThreadState) (o : Option Nat) (h : threadInv v) :
    threadInv (v.set_thread_resource_state b i s o).1 := by
  cases ht : v.threads[i]? with
  | none =>
      rw [reconcile_lookup_none ht s o]
      exact h
  | some t =>
      cases o with
      | none =>
          rw [reconcile_no_acquire ht (Or.inl rfl)]
          intro t' ht' hsome
          rcases List.mem_or_eq_of_mem_set ht' with hm | rfl
          · exact h t' hm hsome
          · simp at hsome
      | some ridx =>
          cases s with
          | Reading =>
              rw [reconcile_read_some ht ridx]
              by_cases hflag : ((releasedBox b t).try_set_reading ridx).1
              · rw [if_pos hflag]
                intro t' ht' hsome
                rcases List.mem_or_eq_of_mem_set ht' with hm | rfl
                · exact h t' hm hsome
                · exact Or.inl rfl
              · rw [if_neg hflag]
                intro t' ht' hsome
                rcases List.mem_or_eq_of_mem_set ht' with hm | rfl
                · exact h t' hm hsome
                · simp at hsome
          | Writing =>
              rw [reconcile_write_some ht ridx]
              by_cases hflag : ((releasedBox b t).try_set_writing ridx).1
              · rw [if_pos hflag]
                intro t' ht' hsome
                rcases List.mem_or_eq_of_mem_set ht' with hm | rfl
                · exact h t' hm hsome
                · exact Or.inr rfl
              · rw [if_neg hflag]
                intro t' ht' hsome
                rcases List.mem_or_eq_of_mem_set ht' with hm | rfl
                · exact h t' hm hsome
                · simp at hsome
          | Waiting =>
              rw [reconcile_no_acquire ht (Or.inr (Or.inl rfl))]
              intro t' ht' hsome
              rcases List.mem_or_eq_of_mem_set ht' with hm | rfl
              · exact h t' hm hsome
              · simp at hsome
          | Idle =>
              rw [reconcile_no_acquire ht (Or.inr (Or.inr rfl))]
              intro t' ht' hsome
              rcases List.mem_or_eq_of_mem_set ht' with hm | rfl
              · exact h t' hm hsome
              · simp at hsome

/-- Any sequence of reconcile calls preserves the entity invariant. -/
theorem threadInv_applyCalls {p : ThreadsVisualizer × ResourceBox}
    (h : threadInv p.1) (cs : List ReconcileCall) :
    threadInv (applyCalls p cs).1 := by
  induction cs generalizing p with
  | nil => simpa [applyCalls] using h
  | cons c cs ih =>
      unfold applyCalls at ih ⊢
      rw [List.foldl_cons]
      exact ih (threadInv_step p.1 p.2 c.index c.new_state c.new_resource h)

/-- C7: every entity satisfies `resource_in_use.isSome → state ∈
{Reading, Writing}`; at construction all entities are `Idle` holding
nothing; the invariant is preserved by every reconcile call (hence holds
after any call sequence from the fresh coordinator); and under it a
`Waiting` entity always holds nothing. -/
theorem thread_entity_invariant :
    (∀ n, ∀ t ∈ (ThreadsVisualizer.new n).threads,
        t.state = ThreadState.Idle ∧ t.resource_in_use = none) ∧
    (∀ v b i s o, threadInv v →
        threadInv (ThreadsVisualizer.set_thread_resource_state v b i s o).1) ∧
    (∀ v, threadInv v → ∀ t ∈ v.threads,
        t.state = ThreadState.Waiting → t.resource_in_use = none) ∧
    (∀ n m cs,
        threadInv
          (applyCalls (ThreadsVisualizer.new n, ResourceBox.new m) cs).1) := by
  refine ⟨?_, ?_, ?_, ?_⟩
  · intro n t ht
    unfold ThreadsVisualizer.new at ht
    simp at ht
    rcases ht with ⟨_, _, rfl⟩
    exact ⟨rfl, rfl⟩
  · intro v b i s o h
    exact threadInv_step v b i s o h
  · intro v h t ht hw
    cases hres : t.resource_in_use with
    | none => rfl
    | some x =>
        have := h t ht (by simp [hres])
        rw [hw] at this
        rcases this with h1 | h1 <;> exact absurd h1 (by simp)
  · intro n m cs
    exact threadInv_applyCalls (threadInv_new n) cs

/-- Witness for C7 after a concrete reconcile sequence. -/
theorem thread_entity_invariant_witness :
    threadInv
      (applyCalls (ThreadsVisualizer.new 2, ResourceBox.new 1)
        [⟨0, ThreadState.Writing, some 0⟩,
         ⟨1, ThreadState.Reading, some 0⟩]).1 :=
  thread_entity_invariant.2.2.2 2 1
    [⟨0, ThreadState.Writing, some 0⟩, ⟨1, ThreadState.Reading, some 0⟩]

/-! ### Release-before-acquire (C3) -/

/-- C3: whenever the entity holds a resource, reconcile behaves exactly
as if the hold were first released through the pool according to the
entity's current state (`Reading → release_read`, `Writing →
release_write`, otherwise no release) and the call were re-run on the
entity with its hold cleared — unconditionally, before any acquisition
and for every requested state/resource (including failing ones).  In
particular, for an entity holding `R` as `Writing` with `R = (0, 1)`, a
`reconcile(Reading, some R)` ends with `R = (1, 0)` and the entity
`Reading` holding `R`. -/
theorem release_before_acquire :
    (∀ v b i s o t old, v.threads[i]? = some t →
        t.resource_in_use = some old →
        ThreadsVisualizer.set_thread_resource_state v b i s o =
          ThreadsVisualizer.set_thread_resource_state
            ⟨v.threads.set i { t with resource_in_use := none }⟩
            (releasedBox b t) i s o) ∧
    (ThreadsVisualizer.set_thread_resource_state
        ⟨[{ name := "A", state := ThreadState.Writing,
            resource_in_use := some 0 }]⟩
        ⟨[{ name := "R", read_count := 0, write_count := 1 }]⟩
        0 ThreadState.Reading (some 0) =
      (⟨[{ name := "A", state := ThreadState.Reading,
            resource_in_use := some 0 }]⟩,
        ⟨[{ name := "R", read_count := 1, write_count := 0 }]⟩)) := by
  constructor
  · intro v b i s o t old ht hold
    have hlen : i < v.threads.length := (List.getElem?_eq_some_iff.mp ht).1
    have ht' : (v.threads.set i { t with resource_in_use := none })[i]? =
        some { t with resource_in_use := none } := lookup_set_self ht _
    have hrb' : releasedBox (releasedBox b t)
        { t with resource_in_use := none } = releasedBox b t := by
      unfold releasedBox
      rfl
    cases o with
    | none =>
        rw [reconcile_no_acquire ht (Or.inl rfl),
          reconcile_no_acquire ht' (Or.inl rfl), hrb']
        simp [List.set_set]
    | some ridx =>
        cases s with
        | Reading =>
            rw [reconcile_read_some ht ridx, reconcile_read_some ht' ridx,
              hrb']
            simp [List.set_set]
        | Writing =>
            rw [reconcile_write_some ht ridx, reconcile_write_some ht' ridx,
              hrb']
            simp [List.set_set]
        | Waiting =>
            rw [reconcile_no_acquire ht (Or.inr (Or.inl rfl)),
              reconcile_no_acquire ht' (Or.inr (Or.inl rfl)), hrb']
            simp [List.set_set]
        | Idle =>
            rw [reconcile_no_acquire ht (Or.inr (Or.inr rfl)),
              reconcile_no_acquire ht' (Or.inr (Or.inr rfl)), hrb']
            simp [List.set_set]
  · rfl

/-- Witness for C3: the general clause applied at the spec's example
configuration. -/
theorem release_before_acquire_witness :
    ThreadsVisualizer.set_thread_resource_state
      ⟨[{ name := "A", state := ThreadState.Writing, resource_in_use := some 0 }]⟩
      ⟨[{ name := "R", read_count := 0, write_count := 1 }]⟩
      0 ThreadState.Reading (some 0) =
    ThreadsVisualizer.set_thread_resource_state
      ⟨[{ name := "A", state := ThreadState.Writing, resource_in_use := none }]⟩
      ⟨[{ name := "R", read_count := 0, write_count := 0 }]⟩
      0 ThreadState.Reading (some 0) :=
  release_before_acquire.1
    ⟨[{ name := "A", state := ThreadState.Writing, resource_in_use := some 0 }]⟩
    ⟨[{ name := "R", read_count := 0, write_count := 1 }]⟩
    0 ThreadState.Reading (some 0)
    { name := "A", state := ThreadState.Writing, resource_in_use := some 0 }
    0 rfl rfl

/-! ### Failed acquisition yields Waiting (C6) -/

/-- C6: in a reconcile call requesting `Reading`/`Writing` on a present
resource, if the matching try-acquire (run against the pool after the
release phase) fails, the entity ends `Waiting` holding nothing and the
pool is exactly the post-release pool (the acquisition attempt changes
no counter); if it succeeds, the entity ends in the requested state
holding the requested index.  In particular, with `R` held as `Writing`
by entity A (`R = (0, 1)`), entity B requesting `Reading` on `R` ends
`Waiting` holding nothing and `R` stays `(0, 1)`. -/
theorem failed_acquisition_waits :
    (∀ v b i t ridx, v.threads[i]? = some t →
      (((releasedBox b t).try_set_reading ridx).1 = false →
        ThreadsVisualizer.set_thread_resource_state v b i
            ThreadState.Reading (some ridx) =
          (⟨v.threads.set i
              { t with resource_in_use := none, state := ThreadState.Waiting }⟩,
            releasedBox b t)) ∧
      (((releasedBox b t).try_set_reading ridx).1 = true →
        ThreadsVisualizer.set_thread_resource_state v b i
            ThreadState.Reading (some ridx) =
          (⟨v.threads.set i
              { t with
                  resource_in_use := some ridx, state := ThreadState.Reading }⟩,
            ((releasedBox b t).try_set_reading ridx).2)) ∧
      (((releasedBox b t).try_set_writing ridx).1 = false →
        ThreadsVisualizer.set_thread_resource_state v b i
            ThreadState.Writing (some ridx) =
          (⟨v.threads.set i
              { t with resource_in_use := none, state := ThreadState.Waiting }⟩,
            releasedBox b t)) ∧
      (((releasedBox b t).try_set_writing ridx).1 = true →
        ThreadsVisualizer.set_thread_resource_state v b i
            ThreadState.Writing (some ridx) =
          (⟨v.threads.set i
              { t with
                  resource_in_use := some ridx, state := ThreadState.Writing }⟩,
            ((releasedBox b t).try_set_writing ridx).2))) ∧
    (ThreadsVisualizer.set_thread_resource_state
        ⟨[{ name := "A", state := ThreadState.Writing, resource_in_use := some 0 },
          { name := "B", state := ThreadState.Idle, resource_in_use := none }]⟩
        ⟨[{ name := "R", read_count := 0, write_count := 1 }]⟩
        1 ThreadState.Reading (some 0) =
      (⟨[{ name := "A", state := ThreadState.Writing, resource_in_use := some 0 },
          { name := "B", state := ThreadState.Waiting, resource_in_use := none }]⟩,
        ⟨[{ name := "R", read_count := 0, write_count := 1 }]⟩)) := by
  constructor
  · intro v b i t ridx ht
    refine ⟨?_, ?_, ?_, ?_⟩
    · intro hflag
      rw [reconcile_read_some ht ridx,
        if_neg (by simp [hflag]), try_set_reading_fail hflag]
    · intro hflag
      rw [reconcile_read_some ht ridx, if_pos hflag]
    · intro hflag
      rw [reconcile_write_some ht ridx,
        if_neg (by simp [hflag]), try_set_writing_fail hflag]
    · intro hflag
      rw [reconcile_write_some ht ridx, if_pos hflag]
  · rfl

/-- Witness for C6 at the spec's two-entity example: B's read request on
the written resource fails, so B ends `Waiting` and the pool is exactly
the post-release pool. -/
theorem failed_acquisition_waits_witness :
    ThreadsVisualizer.set_thread_resource_state
      ⟨[{ name := "A", state := ThreadState.Writing, resource_in_use := some 0 },
        { name := "B", state := ThreadState.Idle, resource_in_use := none }]⟩
      ⟨[{ name := "R", read_count := 0, write_count := 1 }]⟩
      1 ThreadState.Reading (some 0) =
    (⟨[({ name := "A", state := ThreadState.Writing, resource_in_use := some 0 } : ThreadInfo),
        { name := "B", state := ThreadState.Idle, resource_in_use := none }].set 1
        { name := "B", state := ThreadState.Waiting, resource_in_use := none }⟩,
      releasedBox ⟨[{ name := "R", read_count := 0, write_count := 1 }]⟩
        { name := "B", state := ThreadState.Idle, resource_in_use := none }) :=
  ((failed_acquisition_waits.1
    ⟨[{ name := "A", state := ThreadState.Writing, resource_in_use := some 0 },
      { name := "B", state := ThreadState.Idle, resource_in_use := none }]⟩
    ⟨[{ name := "R", read_count := 0, write_count := 1 }]⟩
    1 { name := "B", state := ThreadState.Idle, resource_in_use := none }
    0 rfl).1) rfl

/-! ### Requested state without a requested resource (C10) -/

/-- C10: a reconcile call requesting `Reading` or `Writing` with no
requested resource performs the release phase, then leaves the entity in
the requested state holding nothing, attempting no acquisition (the pool
is exactly the post-release pool, so no counter is incremented); hence
an entity in state `Reading`/`Writing` holding no resource is reachable
through the public interface, as the concrete run from the fresh state
shows. -/
theorem requested_state_without_resource :
    (∀ v b i t s, v.threads[i]? = some t →
        (s = ThreadState.Reading ∨ s = ThreadState.Writing) →
        ThreadsVisualizer.set_thread_resource_state v b i s none =
          (⟨v.threads.set i { t with resource_in_use := none, state := s }⟩,
            releasedBox b t)) ∧
    ((applyCalls (ThreadsVisualizer.new 1, ResourceBox.new 1)
        [⟨0, ThreadState.Reading, none⟩]).1.threads =
      [{ name := "Thread 1", state := ThreadState.Reading,
          resource_in_use := none }] ∧
      (applyCalls (ThreadsVisualizer.new 1, ResourceBox.new 1)
        [⟨0, ThreadState.Reading, none⟩]).2 = ResourceBox.new 1) := by
  refine ⟨?_, ?_, ?_⟩
  · intro v b i t s ht _
    exact reconcile_no_acquire ht (Or.inl rfl)
  · rfl
  · rfl

/-- Witness for C10: the general clause applied at the fresh
single-entity state with a `Reading` request and no resource. -/
theorem requested_state_without_resource_witness :
    ThreadsVisualizer.set_thread_resource_state
      (ThreadsVisualizer.new 1) (ResourceBox.new 1)
      0 ThreadState.Reading none =
    (⟨(ThreadsVisualizer.new 1).threads.set 0
        { name := "Thread 1", state := ThreadState.Reading,
          resource_in_use := none }⟩,
      releasedBox (ResourceBox.new 1)
        { name := "Thread 1", state := ThreadState.Idle,
          resource_in_use := none }) :=
  requested_state_without_resource.1
    (ThreadsVisualizer.new 1) (ResourceBox.new 1) 0
    { name := "Thread 1", state := ThreadState.Idle, resource_in_use := none }
    ThreadState.Reading rfl (Or.inl rfl)

/-! ### Empty-pool no-op (C9) -/

/-- C9: with a pool of zero resources, `update_threads_randomly` returns
the coordinator, pool and random-stream position unchanged (so no random
draw occurs), and iterating it any number of times is still a complete
no-op. -/
theorem empty_pool_noop (v : ThreadsVisualizer) (b : ResourceBox)
    (rng : Nat → Nat) (k n : Nat) (h : b.resources = []) :
    ThreadsVisualizer.update_threads_randomly v b rng k = (v, b, k) ∧
    ThreadsVisualizer.update_iter rng n (v, b, k) = (v, b, k) := by
  have h1 : ∀ k', ThreadsVisualizer.update_threads_randomly v b rng k' =
      (v, b, k') := by
    intro k'
    unfold ThreadsVisualizer.update_threads_randomly
    simp [h]
  refine ⟨h1 k, ?_⟩
  induction n with
  | zero => rfl
  | succ n ih =>
      unfold ThreadsVisualizer.update_iter
      simp only
      rw [h1 k]
      exact ih

/-- Witness for C9 at a concrete empty pool, three entities, five
ticks. -/
theorem empty_pool_noop_witness :
    ThreadsVisualizer.update_threads_randomly (ThreadsVisualizer.new 3)
        (ResourceBox.new 0) (fun x => x) 0 =
      (ThreadsVisualizer.new 3, ResourceBox.new 0, 0) ∧
    ThreadsVisualizer.update_iter (fun x => x) 5
        (ThreadsVisualizer.new 3, ResourceBox.new 0, 0) =
      (ThreadsVisualizer.new 3, ResourceBox.new 0, 0) :=
  empty_pool_noop (ThreadsVisualizer.new 3) (ResourceBox.new 0)
    (fun x => x) 0 5 rfl
